import Mathlib

set_option autoImplicit false

/-!
Shallow embedding of the klog structured logging library (xorkevin/klog).

The repository carries several historical rewrites of the same package; the
current revision is `slog_handler.go` together with the matching `KLogger`
core (Level = slog.Level as an integer, `Enabled` consulting the sink, and
the `attrsList` inline-buffer optimization).  Older snapshots embedded here
where a claim cites them: the kind-tagged `Value` model with `Resolve`
(`src/unnamed/part_003`) and the `JSONSerializer` (`src/json_serializer.go`).

External collaborators (the Go runtime caller tables, `slog` delegate
handlers, the JSON encoder, the output writer, and user `LogValuer`
implementations) are passed as explicit function parameters.
-/

namespace Klog

/-! ## Go errors

Modelled after Go `errors.New` / `fmt.Errorf`.  `fmt.Errorf` yields an error
that unwraps to another error only when a `%w` verb is supplied a valid
`error` operand; otherwise the result is a plain error whose message contains
a `%!w(...)` formatting complaint and which wraps nothing. -/

/-- GoError models a Go error value: either a plain error (errors.New, or a
fmt.Errorf whose %w verb had no valid error operand) or a wrapping error
(fmt.Errorf with a valid %w operand). -/
inductive GoError where
  | base (msg : String)
  | wrap (inner : GoError) (msg : String)
deriving DecidableEq, Repr

/-- GoError.is models Go errors.Is: the target is found if it equals the
error or any error in its unwrap chain. -/
def GoError.is : GoError → GoError → Bool
  | .base m, t => GoError.base m = t
  | .wrap i m, t => GoError.wrap i m = t || i.is t

/-! ## The slog-based attribute value model

Attribute values in the current revision are `slog.Value`s.  Only the
features exercised by `SlogHandler.Handle` are distinguished: string values,
integers, a `slog.KindAny` value holding a Go `error` (which `Handle`
re-wraps into an `errLogValuer`), other `KindAny` payloads, group values,
and the `errLogValuer` wrapper itself (a `slog.LogValuer` that renders the
error through `kerrors.JSONValue`). -/

/-- SValue models the slog.Value payload of an attribute as used by the
current SlogHandler revision. -/
inductive SValue where
  | str (s : String)
  | int (n : Int)
  | anyErr (e : GoError)
  | anyOther (tag : String)
  | errValuer (e : GoError)
  | group (attrs : List (String × SValue))

/-- SAttr models klog.Attr = slog.Attr: a key paired with a value. -/
abbrev SAttr := String × SValue

/-- SAttr.key is the Key field of an attribute. -/
def SAttr.key (a : SAttr) : String := a.1

/-- SAttr.val is the Value field of an attribute. -/
def SAttr.val (a : SAttr) : SValue := a.2

/-! ## attrsList: the inline-buffer attribute list (part_001 lines 702-727)

Go keeps a fixed `[5]Attr` array plus a count plus an overflow slice.  The
array is embedded as a length-5 list (unused slots hold the zero Attr). -/

/-- eventInlineAttrsSize is the size of the inline attribute buffer. -/
def eventInlineAttrsSize : Nat := 5

/-- zeroAttr is the zero value of the Go Attr struct, filling unused inline
buffer slots. -/
def zeroAttr : SAttr := ("", SValue.anyOther "")

/-- attrsList embeds the Go attrsList struct: a fixed-size inline buffer
(always of length eventInlineAttrsSize), the count of used inline slots, and
the overflow slice. -/
structure attrsList where
  inlineAttrs : List SAttr
  numInlineAttrs : Nat
  attrs : List SAttr

/-- attrsList.empty is the zero value of the Go attrsList struct. -/
def attrsList.empty : attrsList :=
  { inlineAttrs := List.replicate eventInlineAttrsSize zeroAttr
    numInlineAttrs := 0
    attrs := [] }

/-- writeSlots models Go `copy(buf[i:], xs)` on a full-length buffer when
the written range fits: the slots starting at index i are replaced by xs. -/
def writeSlots (buf : List SAttr) (i : Nat) (xs : List SAttr) : List SAttr :=
  buf.take i ++ xs ++ buf.drop (i + xs.length)

/-- attrsList.addAttrs embeds Go attrsList.addAttrs: copy as many attributes
as fit into the inline buffer (n = min of remaining capacity and batch
length, the amount Go `copy` transfers), bump the count, and append the rest
to the overflow slice. -/
def attrsList.addAttrs (a : attrsList) (batch : List SAttr) : attrsList :=
  let n := min (eventInlineAttrsSize - a.numInlineAttrs) batch.length
  { inlineAttrs := writeSlots a.inlineAttrs a.numInlineAttrs (batch.take n)
    numInlineAttrs := a.numInlineAttrs + n
    attrs := a.attrs ++ batch.drop n }

/-- attrsList.readAttrs embeds Go attrsList.readAttrs as the list of visited
attributes: the used prefix of the inline buffer followed by the overflow
slice, in that order. -/
def attrsList.readAttrs (a : attrsList) : List SAttr :=
  a.inlineAttrs.take a.numInlineAttrs ++ a.attrs

/-! ## The kind-tagged Value model with lazy resolution (part_003)

Go Value is a kind tag plus payload; the inductive merges them.  The `v any`
payload of a KindAny value may hold a `[]Attr` group, a user `LogValuer`, a
Go error, or anything else.  A `LogValuer` is external user code; its
`LogValue()` result is modelled by an environment `env : Nat → RValue`
mapping a valuer identity to the Value it returns, which permits cyclic and
self-referential valuers (env id mentioning id). -/

/-- RValue models the part_003 klog.Value: kind-tagged payloads, with the
KindAny payload split by its dynamic type.  The anyValuer tag records the Go
dynamic type name of the LogValuer implementation. -/
inductive RValue where
  | bool (b : Bool)
  | int64 (n : Int)
  | uint64 (n : Nat)
  | float64 (bits : Nat)
  | str (s : String)
  | time (t : Nat)
  | duration (d : Int)
  | anyGroup (attrs : List (String × RValue))
  | anyValuer (id : Nat) (tag : String)
  | anyErr (e : GoError)
  | anyOther (tag : String)

/-- valueResolveRecursionLimit is the fixed recursion limit of Resolve. -/
def valueResolveRecursionLimit : Nat := 64

/-- ErrorExceedValueResolveRecursion is the overflow sentinel declared with
errors.New in part_003. -/
def ErrorExceedValueResolveRecursion : GoError :=
  GoError.base "Exceeded value resolve recursion"

/-- RValue.anyTag is the Go dynamic type display of the payload, as fmt
would render it inside a %!w complaint. -/
def RValue.anyTag : RValue → String
  | .bool _ => "bool"
  | .int64 _ => "int64"
  | .uint64 _ => "uint64"
  | .float64 _ => "float64"
  | .str _ => "string"
  | .time _ => "time.Time"
  | .duration _ => "time.Duration"
  | .anyGroup _ => "[]klog.Attr"
  | .anyValuer _ tag => tag
  | .anyErr _ => "error"
  | .anyOther tag => tag

/-- overflowValueMsg is the message of the error built by resolveValue on
overflow.  The Go source reads fmt.Errorf with verbs %w and %T but passes
only orig.v, so %w receives a non-error operand (rendered as a %!w
complaint showing the operand's dynamic type) and %T has no operand at all;
the resulting error wraps nothing. -/
def overflowValueMsg (tag : String) : String :=
  "%!w(" ++ tag ++ "): value type %!T(MISSING)"

/-- overflowGroupMsg is the message of the error built by resolveGroup when
the depth budget is exhausted.  The Go source reads fmt.Errorf with a %w
verb and no operands at all, so the resulting error wraps nothing. -/
def overflowGroupMsg : String := "%!w(MISSING): group value depth"

/-- resolveValueLoop embeds the loop of Value.resolveValue: up to fuel
steps, a KindAny value whose payload implements LogValuer is replaced by
its LogValue() result (looked up in env); any other value is returned as
is.  Exhausting the fuel yields ValueAny of the malformed overflow error
(see overflowValueMsg), which the ValueAny type switch stores as a KindAny
error payload. -/
def resolveValueLoop (env : Nat → RValue) (orig : RValue) : Nat → RValue → RValue
  | 0, _ => RValue.anyErr (GoError.base (overflowValueMsg orig.anyTag))
  | fuel+1, v =>
    match v with
    | .anyValuer id _ => resolveValueLoop env orig fuel (env id)
    | w => w

/-- RValue.resolveValue embeds Value.resolveValue with its fixed fuel of
valueResolveRecursionLimit iterations and orig bound to the input. -/
def RValue.resolveValue (env : Nat → RValue) (v : RValue) : RValue :=
  resolveValueLoop env v valueResolveRecursionLimit v

/-- resolveGroupFuel embeds Value.resolveGroup.  Go counts depth downward
into the negatives and errors a member out when depth < 0 before recursing;
here fuel = depth + 1, so Go depth -1 is fuel 0.  The value is first passed
through resolveValue; if the result is a KindAny []Attr group, each member
is resolved at fuel - 1 (or replaced by ValueAny of the malformed group
overflow error when the budget is gone); any other result is returned. -/
def resolveGroupFuel (env : Nat → RValue) : Nat → RValue → RValue
  | 0, v =>
    match RValue.resolveValue env v with
    | .anyGroup k =>
      RValue.anyGroup (k.map (fun a => (a.1, RValue.anyErr (GoError.base overflowGroupMsg))))
    | w => w
  | fuel+1, v =>
    match RValue.resolveValue env v with
    | .anyGroup k =>
      RValue.anyGroup (k.map (fun a => (a.1, resolveGroupFuel env fuel a.2)))
    | w => w

/-- RValue.Resolve embeds Value.Resolve: resolveGroup at the recursion
limit (Go depth 64, hence fuel 65). -/
def RValue.Resolve (env : Nat → RValue) (v : RValue) : RValue :=
  resolveGroupFuel env (valueResolveRecursionLimit + 1) v

/-- resolveValueStepsLoop counts how many LogValue invocations the
resolveValue loop performs before returning. -/
def resolveValueStepsLoop (env : Nat → RValue) : Nat → RValue → Nat
  | 0, _ => 0
  | fuel+1, v =>
    match v with
    | .anyValuer id _ => 1 + resolveValueStepsLoop env fuel (env id)
    | _ => 0

/-- RValue.resolveValueSteps is the LogValue invocation count of a full
resolveValue run. -/
def RValue.resolveValueSteps (env : Nat → RValue) (v : RValue) : Nat :=
  resolveValueStepsLoop env valueResolveRecursionLimit v

/-- cyclicEnv is a LogValuer environment with a deliberately
self-referential valuer: valuer 0 returns a value holding valuer 0 again. -/
def cyclicEnv : Nat → RValue :=
  fun _ => RValue.anyValuer 0 "klog_test.selfLogValuer"

/-- selfRefValue is the deliberately self-referential lazily-resolvable
value under cyclicEnv. -/
def selfRefValue : RValue := RValue.anyValuer 0 "klog_test.selfLogValuer"

/-! ## SlogHandler: the dedup/precedence engine (slog_handler.go)

The delegate slog.Handler is modelled by the list of base attributes it has
accumulated through WithAttrs; a standard slog handler renders the builtin
level and message fields first, then the WithAttrs attributes, then the
record's own attributes.  Caller-frame resolution (runtime.CallersFrames)
is an external collaborator passed as a function from a pc to the pair of
function name and file:line string. -/

/-- slogBuiltinKeys holds slog.LevelKey and slog.MessageKey, the builtin
keys reserved in slog_handler.go. -/
def slogBuiltinKeys : List String := ["level", "msg"]

/-- SlogHandler embeds the handler state: the reserved field names, the
module path separator and accumulated module path, the registered attribute
key set (a Go map, modelled as a list with membership), and the delegate
slog handler's accumulated WithAttrs attributes.  The FieldTimeLoc time
zone only affects time rendering and is absorbed into fmtTime. -/
structure SlogHandler where
  FieldTime : String
  FieldSrc : String
  FieldMod : String
  ModSeparator : String
  Mod : String
  attrKeySet : List String
  baseAttrs : List SAttr

/-- NewSlogHandler builds the handler with its default field names, a dot
module separator, an empty module path, an empty key set, and a fresh
delegate. -/
def NewSlogHandler : SlogHandler :=
  { FieldTime := "t"
    FieldSrc := "src"
    FieldMod := "mod"
    ModSeparator := "."
    Mod := ""
    attrKeySet := []
    baseAttrs := [] }

/-- checkKeyWith is SlogHandler.checkAttrKey with the attribute key set
passed explicitly (Subhandler consults it on a growing set): a key is
refused when empty, equal to a reserved field name, a slog builtin key, or
already registered. -/
def checkKeyWith (h : SlogHandler) (ks : List String) (k : String) : Bool :=
  k = "" || k = h.FieldTime || k = h.FieldSrc || k = h.FieldMod
    || slogBuiltinKeys.contains k || ks.contains k

/-- checkAttrKey embeds SlogHandler.checkAttrKey. -/
def SlogHandler.checkAttrKey (h : SlogHandler) (k : String) : Bool :=
  checkKeyWith h h.attrKeySet k

/-- Subhandler embeds SlogHandler.Subhandler: clone the handler, extend the
module path when the segment is nonempty, and register the base attributes
one by one, skipping any whose key checkAttrKey refuses against the set as
grown so far; the surviving attributes are handed to the delegate's
WithAttrs. -/
def SlogHandler.Subhandler (h : SlogHandler) (modSegment : String) (attrs : List SAttr) :
    SlogHandler :=
  let mod := if modSegment ≠ "" then h.Mod ++ h.ModSeparator ++ modSegment else h.Mod
  let st := attrs.foldl
    (fun (st : List String × List SAttr) a =>
      if checkKeyWith h st.1 a.key then st else (st.1 ++ [a.key], st.2 ++ [a]))
    (h.attrKeySet, [])
  { h with Mod := mod, attrKeySet := st.1, baseAttrs := h.baseAttrs ++ st.2 }

/-- SRecord models the slog.Record data Handle consumes and produces: a
time (0 for the zero time.Time), an integer slog level, a message, a pc
(0 when absent), and the attribute list. -/
structure SRecord where
  time : Nat
  level : Int
  msg : String
  pc : Nat
  attrs : List SAttr

/-- fmtTime stands in for rendering r.Time in the FieldTimeLoc zone with
the RFC3339Nano layout; the exact text is external formatting. -/
def fmtTime (t : Nat) : String := "rfc3339:" ++ toString t

/-- levelText stands in for slog.Level's textual rendering used by the
delegate for the builtin level field. -/
def levelText (level : Int) : String := "slog_level:" ++ toString level

/-- normAttr embeds the error re-wrapping branch of addFilteredAttrs: a
KindAny value holding a Go error is replaced by AAny of the errLogValuer
wrapper around that error under the same key; all other attributes pass
through unchanged. -/
def normAttr (a : SAttr) : SAttr :=
  match a.val with
  | .anyErr e => (a.key, SValue.errValuer e)
  | _ => a

/-- addFiltered embeds the addFilteredAttrs closure of Handle: an attribute
is dropped when checkAttrKey refuses its key or the key was already written
in this record; otherwise the key is marked seen and the (possibly
error-wrapped) attribute is appended to the output record. -/
def addFiltered (h : SlogHandler) (st : List String × List SAttr) (a : SAttr) :
    List String × List SAttr :=
  if h.checkAttrKey a.key then st
  else if st.1.contains a.key then st
  else (st.1 ++ [a.key], st.2 ++ [normAttr a])

/-- synthAttrs is the synthesized prefix Handle writes into the fresh
record before any user attribute: the formatted timestamp under FieldTime
(when configured and the time is nonzero), the caller frame group under
FieldSrc (when configured and a pc was captured), and the module path under
FieldMod (when configured and nonempty). -/
def synthAttrs (h : SlogHandler) (frameOf : Nat → String × String) (r : SRecord) :
    List SAttr :=
  (if h.FieldTime ≠ "" ∧ r.time ≠ 0 then [(h.FieldTime, SValue.str (fmtTime r.time))] else [])
    ++ (if h.FieldSrc ≠ "" ∧ r.pc ≠ 0 then
        [(h.FieldSrc, SValue.group
          [("fn", SValue.str (frameOf r.pc).1), ("file", SValue.str (frameOf r.pc).2)])]
      else [])
    ++ (if h.FieldMod ≠ "" ∧ h.Mod ≠ "" then [(h.FieldMod, SValue.str h.Mod)] else [])

/-- filteredAttrs is the user-attribute portion of the record Handle
builds: the context chain batches are folded innermost node first (child
before parent, following context.Context value semantics), then the
record's own call-site attributes, all through addFiltered with one shared
seen-key state. -/
def filteredAttrs (h : SlogHandler) (chain : List (List SAttr)) (callsite : List SAttr) :
    List SAttr :=
  let st1 := chain.foldl (fun st batch => batch.foldl (addFiltered h) st) ([], [])
  (callsite.foldl (addFiltered h) st1).2

/-- handleRecord embeds SlogHandler.Handle up to the delegate handoff: the
fresh record r2 carries a zero time and pc, the incoming level and message,
and the synthesized attributes followed by the filtered user attributes.
The chain argument lists the readAttrs sequences of the context attribute
nodes, innermost first. -/
def handleRecord (h : SlogHandler) (frameOf : Nat → String × String)
    (chain : List (List SAttr)) (r : SRecord) : SRecord :=
  { time := 0
    level := r.level
    msg := r.msg
    pc := 0
    attrs := synthAttrs h frameOf r ++ filteredAttrs h chain r.attrs }

/-- emittedAttrs is the attribute sequence of the record as the delegate
slog handler renders it: the builtin level and message fields, then the
WithAttrs base attributes, then the attributes of the record built by
Handle. -/
def emittedAttrs (h : SlogHandler) (frameOf : Nat → String × String)
    (chain : List (List SAttr)) (r : SRecord) : List SAttr :=
  ("level", SValue.str (levelText r.level)) :: ("msg", SValue.str r.msg)
    :: (h.baseAttrs ++ (handleRecord h frameOf chain r).attrs)

/-- lookupKey is the first attribute value carried under a key, read left
to right. -/
def lookupKey (l : List SAttr) (k : String) : Option SValue :=
  (l.find? (fun a => a.key = k)).map SAttr.val

/-! ## KLogger core (part_001, current revision)

Level is slog.Level, an integer with Debug = -4, Info = 0, Warn = 4,
Error = 8.  The sink's own Enabled check (delegated to the slog handler)
and the runtime pc capture are external collaborators carried as fields or
parameters; the injected clock is modelled by the time value it returns. -/

/-- LevelDebug is slog.LevelDebug. -/
def LevelDebug : Int := -4

/-- LevelInfo is slog.LevelInfo. -/
def LevelInfo : Int := 0

/-- LevelWarn is slog.LevelWarn. -/
def LevelWarn : Int := 4

/-- LevelError is slog.LevelError. -/
def LevelError : Int := 8

/-- KLogger embeds the logger node: the minimum level, the sink's Enabled
predicate (the handler field, abstracted to the one operation Enabled
uses), and the injected clock abstracted to the time it currently reads. -/
structure KLogger where
  minLevel : Int
  sinkEnabled : Int → Bool
  clockNow : Nat

/-- KLogger.Enabled embeds the current KLogger.Enabled: the level clears
the logger's own floor and the sink independently agrees. -/
def KLogger.Enabled (l : KLogger) (level : Int) : Bool :=
  decide (level ≥ l.minLevel) && l.sinkEnabled level

/-- LogEffects is the effect accounting of one KLogger.Log call: how many
times the clock was read, how many caller pcs were captured, and the record
handed to the sink's Handle, if any. -/
structure LogEffects where
  clockReads : Nat
  pcCaptures : Nat
  handled : Option SRecord

/-- KLogger.Log embeds the current KLogger.Log: a call below the enabled
check returns at once with no clock read, no pc capture, no record and no
Handle call; otherwise the clock is read, the caller pc is captured with
skip + 1 (pcOf standing in for runtime.Callers), a record is built from
them with the message and call-site attributes, and the sink's Handle
receives it (its error discarded). -/
def KLogger.Log (l : KLogger) (pcOf : Nat → Nat) (level : Int) (skip : Nat)
    (msg : String) (attrs : List SAttr) : LogEffects :=
  if !(l.Enabled level) then
    { clockReads := 0, pcCaptures := 0, handled := none }
  else
    { clockReads := 1
      pcCaptures := 1
      handled := some
        { time := l.clockNow, level := level, msg := msg, pc := pcOf (1 + skip), attrs := attrs } }

/-! ## JSONSerializer (json_serializer.go, historical sink)

The JSON encoder and the copy onto the underlying writer are external
collaborators passed as functions that may fail.  The serializer's Log has
no error result in Go; its observable outcome is what reached the writer
and what was printed on the side-channel ErrorLog. -/

/-- JSONOutcome is the observable outcome of one JSONSerializer.Log call:
the encoded line that reached the writer, if any, and the messages printed
on the ErrorLog side channel. -/
structure JSONOutcome where
  written : Option String
  errorLog : List String

/-- jsonFields builds the allFields map of JSONSerializer.Log: the ten
reserved fields, then the user fields merged in with mergeFields, which
keeps the first writer of every key (values rendered as opaque strings). -/
def jsonFields (path : String) (msg : String) (levelStr : String) (timeStr : String)
    (callerStr : String) (fields : List (String × String)) : List (String × String) :=
  let reserved := [("level", levelStr), ("time", timeStr), ("caller", callerStr),
    ("path", path), ("msg", msg)]
  reserved ++ fields.filter (fun f => ¬ (reserved.map Prod.fst).contains f.1)

/-- JSONSerializer.Log embeds the error flow of the serializer's Log: the
record is encoded (json.Encoder, external); an encoding failure is printed
on the ErrorLog and the call returns; otherwise the bytes are copied onto
the writer W (io.Copy, external); a write failure is printed on the
ErrorLog and the call returns; on success nothing reaches the ErrorLog.
In every case the Go function returns nothing to its caller. -/
def JSONSerializer.Log (enc : List (String × String) → Except String String)
    (wr : String → Except String Unit) (allFields : List (String × String)) : JSONOutcome :=
  match enc allFields with
  | .error err => { written := none, errorLog := [err] }
  | .ok b =>
    match wr b with
    | .error err => { written := none, errorLog := [err] }
    | .ok _ => { written := some b, errorLog := [] }

/-! ## Reference-cell model of handler derivation (claim C9)

Go's attrKeySet is a map value shared by reference; clone deep-copies it
with maps.Clone before Subhandler mutates the copy.  The store σ holds the
key-set cells; a handler names its cell by index.  Subhandler on this model
is proved to leave the parent's cell untouched and to refine the pure
Subhandler above. -/

/-- KeyStore is the heap of attribute-key-set cells. -/
abbrev KeyStore := List (List String)

/-- SlogHandlerRef is the handler with its attribute key set held by
reference into a KeyStore. -/
structure SlogHandlerRef where
  FieldTime : String
  FieldSrc : String
  FieldMod : String
  ModSeparator : String
  Mod : String
  keySetRef : Nat
  baseAttrs : List SAttr

/-- derefHandler reads a referenced handler back into the pure model by
looking its key set up in the store. -/
def derefHandler (h : SlogHandlerRef) (σ : KeyStore) : SlogHandler :=
  { FieldTime := h.FieldTime
    FieldSrc := h.FieldSrc
    FieldMod := h.FieldMod
    ModSeparator := h.ModSeparator
    Mod := h.Mod
    attrKeySet := σ.getD h.keySetRef []
    baseAttrs := h.baseAttrs }

/-- cloneRef embeds SlogHandler.clone on the reference model: a fresh cell
is allocated holding a deep copy (maps.Clone) of the parent's key set, and
the clone points at the fresh cell; every other field is copied by value. -/
def cloneRef (h : SlogHandlerRef) (σ : KeyStore) : SlogHandlerRef × KeyStore :=
  ({ h with keySetRef := σ.length }, σ ++ [σ.getD h.keySetRef []])

/-- SubhandlerRef embeds SlogHandler.Subhandler on the reference model:
clone first, extend the clone's module path, then register each surviving
base attribute by writing through the clone's key-set reference. -/
def SubhandlerRef (h : SlogHandlerRef) (σ : KeyStore) (modSegment : String)
    (attrs : List SAttr) : SlogHandlerRef × KeyStore :=
  let hσ := cloneRef h σ
  let h2 := hσ.1
  let mod := if modSegment ≠ "" then h2.Mod ++ h2.ModSeparator ++ modSegment else h2.Mod
  let st := attrs.foldl
    (fun (st : KeyStore × List SAttr) a =>
      if checkKeyWith (derefHandler h2 st.1) (st.1.getD h2.keySetRef []) a.key then st
      else (st.1.set h2.keySetRef (st.1.getD h2.keySetRef [] ++ [a.key]), st.2 ++ [a]))
    (hσ.2, [])
  ({ h2 with Mod := mod, baseAttrs := h2.baseAttrs ++ st.2 }, st.1)

/-! ## Proof-side recursion views of the two key-set folds -/

/-- normVal is the value transformation of normAttr. -/
def normVal : SValue → SValue
  | .anyErr e => SValue.errValuer e
  | v => v

/-- isAnyErr recognizes a slog KindAny value holding a Go error, the one
case the addFilteredAttrs closure rewrites. -/
def isAnyErr : SValue → Bool
  | .anyErr _ => true
  | _ => false

/-- SlogHandler.reserved is checkAttrKey with the registered key set
ignored: the statically reserved keys (empty, the three field names, and
the slog builtin keys). -/
def SlogHandler.reserved (h : SlogHandler) (k : String) : Bool :=
  checkKeyWith h [] k

/-- filterRun is a structural-recursion view of folding addFiltered over a
list: it returns the final seen-key state and the emitted attributes. -/
def filterRun (h : SlogHandler) : List SAttr → List String → List String × List SAttr
  | [], seen => (seen, [])
  | a :: l, seen =>
    if h.checkAttrKey a.key then filterRun h l seen
    else if seen.contains a.key then filterRun h l seen
    else
      let r := filterRun h l (seen ++ [a.key])
      (r.1, normAttr a :: r.2)

/-- regRun is a structural-recursion view of the Subhandler registration
fold: it returns the final key set and the attributes handed to the
delegate's WithAttrs. -/
def regRun (h : SlogHandler) : List SAttr → List String → List String × List SAttr
  | [], ks => (ks, [])
  | a :: l, ks =>
    if checkKeyWith h ks a.key then regRun h l ks
    else
      let r := regRun h l (ks ++ [a.key])
      (r.1, a :: r.2)

/-- GoodHandler is the derivation invariant of SlogHandler state: the base
attribute keys are duplicate free, the registered key set is exactly the
base attribute keys in registration order, and no base attribute carries a
statically reserved key. -/
@[reducible]
def GoodHandler (h : SlogHandler) : Prop :=
  (h.baseAttrs.map SAttr.key).Nodup
    ∧ h.attrKeySet = h.baseAttrs.map SAttr.key
    ∧ ∀ a ∈ h.baseAttrs, h.reserved a.key = false

/-- FieldsOK asks the configured reserved field names to be pairwise
distinct and distinct from the slog builtin keys, as the defaults are. -/
@[reducible]
def FieldsOK (h : SlogHandler) : Prop :=
  h.FieldTime ≠ h.FieldSrc ∧ h.FieldTime ≠ h.FieldMod ∧ h.FieldSrc ≠ h.FieldMod
    ∧ slogBuiltinKeys.contains h.FieldTime = false
    ∧ slogBuiltinKeys.contains h.FieldSrc = false
    ∧ slogBuiltinKeys.contains h.FieldMod = false

/-! ## Concrete instances used by the witnesses -/

/-- c1H is the sub-handler of the spec's concrete scenario: derived from
the default handler with path segment svc and base attribute env=prod. -/
def c1H : SlogHandler :=
  NewSlogHandler.Subhandler "svc" [("env", SValue.str "prod")]

/-- c1Frame is a concrete caller-frame resolver. -/
def c1Frame : Nat → String × String :=
  fun _ => ("main.run", "main.go:10")

/-- c1Chain is a context attribute chain carrying req_id=abc. -/
def c1Chain : List (List SAttr) :=
  [[("req_id", SValue.str "abc")]]

/-- c1R is the call-site record of the scenario: Info started with
env=ignored and port=8080. -/
def c1R : SRecord :=
  { time := 5
    level := 0
    msg := "started"
    pc := 7
    attrs := [("env", SValue.str "ignored"), ("port", SValue.int 8080)] }

/-- c3Logger is a logger gated at warn whose sink accepts every level. -/
def c3Logger : KLogger :=
  { minLevel := LevelWarn, sinkEnabled := fun _ => true, clockNow := 9 }

/-- c3PcOf is a concrete stand-in for runtime.Callers. -/
def c3PcOf : Nat → Nat := fun skip => 100 + skip

/-- c8Fields is a concrete allFields payload. -/
def c8Fields : List (String × String) :=
  jsonFields "" "hello" "INFO" "rfc3339:1" "" []

/-- c8Enc is an encoder that succeeds with a fixed line. -/
def c8Enc : List (String × String) → Except String String :=
  fun _ => Except.ok "line"

/-- c8Wr mirrors the failWriter of the serializer tests: every write fails. -/
def c8Wr : String → Except String Unit :=
  fun _ => Except.error "Failed writing"

/-- c9H is a referenced handler whose key-set cell is index 0. -/
def c9H : SlogHandlerRef :=
  { FieldTime := "t"
    FieldSrc := "src"
    FieldMod := "mod"
    ModSeparator := "."
    Mod := ""
    keySetRef := 0
    baseAttrs := [("x", SValue.str "1")] }

/-- c9Store is a store carrying the key-set cell of c9H. -/
def c9Store : KeyStore := [["x"]]

/-- attrsListInv is the reachability invariant of attrsList states: the
inline buffer keeps its fixed length, the used count never exceeds it, and
the overflow slice is only populated once the inline buffer is full. -/
def attrsListInv (a : attrsList) : Prop :=
  a.inlineAttrs.length = eventInlineAttrsSize
    ∧ a.numInlineAttrs ≤ eventInlineAttrsSize
    ∧ (a.attrs ≠ [] → a.numInlineAttrs = eventInlineAttrsSize)

theorem normAttr_key (a : SAttr) : (normAttr a).key = a.key := by
  cases a with
  | mk k v => cases v <;> rfl

theorem normAttr_eq (a : SAttr) : normAttr a = (a.key, normVal a.val) := by
  cases a with
  | mk k v => cases v <;> rfl

theorem normVal_id (v : SValue) (hv : isAnyErr v = false) : normVal v = v := by
  cases v <;> simp_all [normVal, isAnyErr]

theorem checkAttrKey_split (h : SlogHandler) (k : String) :
    h.checkAttrKey k = (h.reserved k || h.attrKeySet.contains k) := by
  simp only [SlogHandler.checkAttrKey, SlogHandler.reserved, checkKeyWith,
    List.contains_nil, Bool.or_false]

theorem checkKeyWith_split (h : SlogHandler) (ks : List String) (k : String) :
    checkKeyWith h ks k = (h.reserved k || ks.contains k) := by
  simp only [SlogHandler.reserved, checkKeyWith, List.contains_nil, Bool.or_false]

theorem foldl_addFiltered (h : SlogHandler) (l : List SAttr) :
    ∀ (seen : List String) (acc : List SAttr),
      l.foldl (addFiltered h) (seen, acc)
        = ((filterRun h l seen).1, acc ++ (filterRun h l seen).2) := by
  induction l with
  | nil => intro seen acc; simp [filterRun]
  | cons a l ih =>
    intro seen acc
    simp only [List.foldl_cons, filterRun, addFiltered]
    by_cases h1 : h.checkAttrKey a.key
    · simp [h1, ih]
    · by_cases h2 : a.key ∈ seen
      · simp [h1, h2, ih]
      · simp [h1, h2, ih]

theorem foldl_reg (h : SlogHandler) (l : List SAttr) :
    ∀ (ks : List String) (acc : List SAttr),
      l.foldl
          (fun (st : List String × List SAttr) a =>
            if checkKeyWith h st.1 a.key then st else (st.1 ++ [a.key], st.2 ++ [a]))
          (ks, acc)
        = ((regRun h l ks).1, acc ++ (regRun h l ks).2) := by
  induction l with
  | nil => intro ks acc; simp [regRun]
  | cons a l ih =>
    intro ks acc
    simp only [List.foldl_cons, regRun]
    by_cases h1 : checkKeyWith h ks a.key
    · simp [h1, ih]
    · simp [h1, ih]

theorem filteredAttrs_eq (h : SlogHandler) (chain : List (List SAttr))
    (callsite : List SAttr) :
    filteredAttrs h chain callsite = (filterRun h (chain.flatten ++ callsite) []).2 := by
  have hjoin : ∀ (L : List (List SAttr)) (st : List String × List SAttr),
      L.foldl (fun st batch => batch.foldl (addFiltered h) st) st
        = L.flatten.foldl (addFiltered h) st := by
    intro L
    induction L with
    | nil => intro st; simp
    | cons b L ih => intro st; simp [List.foldl_append, ih]
  have hrw : filteredAttrs h chain callsite
      = ((chain.flatten ++ callsite).foldl (addFiltered h) ([], [])).2 := by
    simp only [filteredAttrs, List.foldl_append, hjoin]
  rw [hrw, foldl_addFiltered]
  simp

theorem Subhandler_eq (h : SlogHandler) (seg : String) (attrs : List SAttr) :
    h.Subhandler seg attrs
      = { h with
          Mod := if seg ≠ "" then h.Mod ++ h.ModSeparator ++ seg else h.Mod
          attrKeySet := (regRun h attrs h.attrKeySet).1
          baseAttrs := h.baseAttrs ++ (regRun h attrs h.attrKeySet).2 } := by
  simp only [SlogHandler.Subhandler, foldl_reg]
  simp

theorem filterRun_cons_chk (h : SlogHandler) (a : SAttr) (l : List SAttr)
    (seen : List String) (h1 : h.checkAttrKey a.key = true) :
    filterRun h (a :: l) seen = filterRun h l seen := by
  simp [filterRun, h1]

theorem filterRun_cons_seen (h : SlogHandler) (a : SAttr) (l : List SAttr)
    (seen : List String) (h1 : h.checkAttrKey a.key = false) (h2 : a.key ∈ seen) :
    filterRun h (a :: l) seen = filterRun h l seen := by
  simp [filterRun, h1, List.elem_eq_mem, h2]

theorem filterRun_cons_new (h : SlogHandler) (a : SAttr) (l : List SAttr)
    (seen : List String) (h1 : h.checkAttrKey a.key = false) (h2 : a.key ∉ seen) :
    filterRun h (a :: l) seen
      = ((filterRun h l (seen ++ [a.key])).1,
        normAttr a :: (filterRun h l (seen ++ [a.key])).2) := by
  simp [filterRun, h1, List.elem_eq_mem, h2]

theorem regRun_cons_chk (h : SlogHandler) (a : SAttr) (l : List SAttr)
    (ks : List String) (h1 : checkKeyWith h ks a.key = true) :
    regRun h (a :: l) ks = regRun h l ks := by
  simp [regRun, h1]

theorem regRun_cons_new (h : SlogHandler) (a : SAttr) (l : List SAttr)
    (ks : List String) (h1 : checkKeyWith h ks a.key = false) :
    regRun h (a :: l) ks
      = ((regRun h l (ks ++ [a.key])).1, a :: (regRun h l (ks ++ [a.key])).2) := by
  simp [regRun, h1]

theorem lookupKey_cons_hit (a : SAttr) (l : List SAttr) (k : String) (he : a.key = k) :
    lookupKey (a :: l) k = some a.val := by
  simp only [lookupKey, List.find?_cons]
  rw [show decide (a.key = k) = true from decide_eq_true he]
  rfl

theorem lookupKey_cons_miss (a : SAttr) (l : List SAttr) (k : String) (he : a.key ≠ k) :
    lookupKey (a :: l) k = lookupKey l k := by
  simp only [lookupKey, List.find?_cons]
  rw [show decide (a.key = k) = false from decide_eq_false he]

theorem filterRun_sound (h : SlogHandler) (l : List SAttr) :
    ∀ seen : List String,
      (((filterRun h l seen).2.map SAttr.key).Nodup)
        ∧ ∀ a ∈ (filterRun h l seen).2,
            h.checkAttrKey a.key = false ∧ a.key ∉ seen ∧ ∃ u ∈ l, a = normAttr u := by
  induction l with
  | nil => intro seen; simp [filterRun]
  | cons a l ih =>
    intro seen
    by_cases h1 : h.checkAttrKey a.key
    · rw [filterRun_cons_chk h a l seen h1]
      refine ⟨(ih seen).1, fun b hb => ?_⟩
      obtain ⟨hc, hs, u, hu, he⟩ := (ih seen).2 b hb
      exact ⟨hc, hs, u, List.mem_cons_of_mem _ hu, he⟩
    · replace h1 : h.checkAttrKey a.key = false := by simpa using h1
      by_cases h2 : a.key ∈ seen
      · rw [filterRun_cons_seen h a l seen h1 h2]
        refine ⟨(ih seen).1, fun b hb => ?_⟩
        obtain ⟨hc, hs, u, hu, he⟩ := (ih seen).2 b hb
        exact ⟨hc, hs, u, List.mem_cons_of_mem _ hu, he⟩
      · rw [filterRun_cons_new h a l seen h1 h2]
        have hrest := ih (seen ++ [a.key])
        refine ⟨?_, ?_⟩
        · rw [List.map_cons, List.nodup_cons]
          refine ⟨?_, hrest.1⟩
          intro hmem
          obtain ⟨b, hb, hkey⟩ := List.mem_map.mp hmem
          obtain ⟨_, hs, _⟩ := hrest.2 b hb
          exact hs (by simp [hkey, normAttr_key])
        · intro b hb
          rcases List.mem_cons.mp hb with hb | hb
          · subst hb
            refine ⟨by simpa [normAttr_key] using h1, by simpa [normAttr_key] using h2,
              a, List.mem_cons_self _ _, rfl⟩
          · obtain ⟨hc, hs, u, hu, he⟩ := hrest.2 b hb
            exact ⟨hc, fun hmem => hs (List.mem_append_left _ hmem),
              u, List.mem_cons_of_mem _ hu, he⟩

theorem filterRun_lookup (h : SlogHandler) (l : List SAttr) :
    ∀ (seen : List String) (k : String), h.checkAttrKey k = false → k ∉ seen →
      lookupKey (filterRun h l seen).2 k = (lookupKey l k).map normVal := by
  induction l with
  | nil => intro seen k _ _; simp [filterRun, lookupKey]
  | cons a l ih =>
    intro seen k hk hs
    by_cases h1 : h.checkAttrKey a.key
    · have hne : a.key ≠ k := fun he => by rw [he] at h1; simp [hk] at h1
      rw [filterRun_cons_chk h a l seen h1, ih seen k hk hs, lookupKey_cons_miss a l k hne]
    · replace h1 : h.checkAttrKey a.key = false := by simpa using h1
      by_cases h2 : a.key ∈ seen
      · have hne : a.key ≠ k := fun he => hs (he ▸ h2)
        rw [filterRun_cons_seen h a l seen h1 h2, ih seen k hk hs,
          lookupKey_cons_miss a l k hne]
      · rw [filterRun_cons_new h a l seen h1 h2]
        by_cases he : a.key = k
        · rw [lookupKey_cons_hit (normAttr a) _ k (by rw [normAttr_key]; exact he),
            lookupKey_cons_hit a l k he, normAttr_eq]
          rfl
        · have hs2 : k ∉ seen ++ [a.key] := by
            intro hmem
            rcases List.mem_append.mp hmem with hmem | hmem
            · exact hs hmem
            · rw [List.mem_singleton] at hmem
              exact he hmem.symm
          rw [lookupKey_cons_miss (normAttr a) _ k (by rw [normAttr_key]; exact he),
            ih (seen ++ [a.key]) k hk hs2, lookupKey_cons_miss a l k he]

theorem regRun_sound (h : SlogHandler) (l : List SAttr) :
    ∀ ks : List String,
      (regRun h l ks).1 = ks ++ ((regRun h l ks).2.map SAttr.key)
        ∧ (((regRun h l ks).2.map SAttr.key).Nodup)
        ∧ ∀ a ∈ (regRun h l ks).2,
            h.reserved a.key = false ∧ a.key ∉ ks ∧ a ∈ l := by
  induction l with
  | nil => intro ks; simp [regRun]
  | cons a l ih =>
    intro ks
    by_cases h1 : checkKeyWith h ks a.key
    · rw [regRun_cons_chk h a l ks h1]
      refine ⟨(ih ks).1, (ih ks).2.1, fun b hb => ?_⟩
      obtain ⟨hc, hs, hm⟩ := (ih ks).2.2 b hb
      exact ⟨hc, hs, List.mem_cons_of_mem _ hm⟩
    · replace h1 : checkKeyWith h ks a.key = false := by simpa using h1
      rw [regRun_cons_new h a l ks h1]
      rw [checkKeyWith_split] at h1
      have hres : h.reserved a.key = false := by
        rcases Bool.or_eq_false_iff.mp h1 with ⟨hr, _⟩
        exact hr
      have hmem : a.key ∉ ks := by
        rcases Bool.or_eq_false_iff.mp h1 with ⟨_, hc⟩
        intro hm
        simp [List.contains, List.elem_eq_mem, hm] at hc
      have hrest := ih (ks ++ [a.key])
      refine ⟨?_, ?_, ?_⟩
      · rw [List.map_cons]
        rw [hrest.1]
        simp
      · rw [List.map_cons, List.nodup_cons]
        refine ⟨?_, hrest.2.1⟩
        intro hmm
        obtain ⟨b, hb, hkey⟩ := List.mem_map.mp hmm
        obtain ⟨_, hs, _⟩ := hrest.2.2 b hb
        exact hs (by simp [hkey])
      · intro b hb
        rcases List.mem_cons.mp hb with hb | hb
        · subst hb
          exact ⟨hres, hmem, List.mem_cons_self _ _⟩
        · obtain ⟨hc, hs, hm⟩ := hrest.2.2 b hb
          exact ⟨hc, fun hmm => hs (List.mem_append_left _ hmm),
            List.mem_cons_of_mem _ hm⟩

theorem lookupKey_append (l1 l2 : List SAttr) (k : String) :
    lookupKey (l1 ++ l2) k = (lookupKey l1 k).or (lookupKey l2 k) := by
  simp only [lookupKey, List.find?_append]
  cases l1.find? (fun a => a.key = k) <;> simp

theorem lookupKey_eq_none_iff (l : List SAttr) (k : String) :
    lookupKey l k = none ↔ k ∉ l.map SAttr.key := by
  induction l with
  | nil => simp [lookupKey]
  | cons a l ih =>
    by_cases he : a.key = k
    · rw [lookupKey_cons_hit a l k he]
      simp [he]
    · rw [lookupKey_cons_miss a l k he, ih]
      simp only [List.map_cons, List.mem_cons]
      have he2 : ¬ k = a.key := fun hh => he hh.symm
      simp [he2]

theorem reserved_false_iff (h : SlogHandler) (k : String) :
    h.reserved k = false
      ↔ k ≠ "" ∧ k ≠ h.FieldTime ∧ k ≠ h.FieldSrc ∧ k ≠ h.FieldMod
          ∧ k ≠ "level" ∧ k ≠ "msg" := by
  simp only [SlogHandler.reserved, checkKeyWith, slogBuiltinKeys, Bool.or_eq_false_iff,
    decide_eq_false_iff_not, List.contains_nil]
  constructor
  · rintro ⟨⟨⟨⟨⟨h1, h2⟩, h3⟩, h4⟩, h5⟩, _⟩
    have hb : k ≠ "level" ∧ k ≠ "msg" := by
      by_contra hc
      push_neg at hc
      rcases em (k = "level") with he | he
      · simp [he, List.contains, List.elem] at h5
      · simp [he] at hc
        simp [hc, List.contains, List.elem] at h5
    exact ⟨h1, h2, h3, h4, hb.1, hb.2⟩
  · rintro ⟨h1, h2, h3, h4, h5, h6⟩
    refine ⟨⟨⟨⟨⟨h1, h2⟩, h3⟩, h4⟩, ?_⟩, trivial⟩
    have : (["level", "msg"] : List String).contains k = decide (k ∈ ["level", "msg"]) :=
      List.elem_eq_mem k _
    rw [this]
    simp [h5, h6]

theorem reserved_Subhandler (h : SlogHandler) (seg : String) (attrs : List SAttr) :
    (h.Subhandler seg attrs).reserved = h.reserved := by
  rw [Subhandler_eq]
  funext k
  rfl

theorem GoodHandler_New : GoodHandler NewSlogHandler := by
  refine ⟨by simp [NewSlogHandler], by simp [NewSlogHandler], ?_⟩
  intro a ha
  simp [NewSlogHandler] at ha

theorem FieldsOK_New : FieldsOK NewSlogHandler := by
  refine ⟨?_, ?_, ?_, ?_, ?_, ?_⟩ <;> decide

theorem FieldsOK_Subhandler (h : SlogHandler) (seg : String) (attrs : List SAttr)
    (hf : FieldsOK h) : FieldsOK (h.Subhandler seg attrs) := by
  rw [Subhandler_eq]
  exact hf

theorem GoodHandler_Subhandler (h : SlogHandler) (seg : String) (attrs : List SAttr)
    (hg : GoodHandler h) : GoodHandler (h.Subhandler seg attrs) := by
  obtain ⟨hnb, hset, hres⟩ := hg
  obtain ⟨hks, hnodup, hmem⟩ := regRun_sound h attrs h.attrKeySet
  rw [Subhandler_eq]
  refine ⟨?_, ?_, ?_⟩
  · simp only [List.map_append]
    refine hnb.append hnodup ?_
    intro k hk1 hk2
    obtain ⟨a, ha, hak⟩ := List.mem_map.mp hk2
    exact (hmem a ha).2.1 (by rw [hak, hset]; exact hk1)
  · simp only [List.map_append]
    rw [hks, hset]
  · intro a ha
    rcases List.mem_append.mp ha with ha | ha
    · exact hres a ha
    · exact (hmem a ha).1

theorem synth_keys (h : SlogHandler) (frameOf : Nat → String × String) (r : SRecord) :
    ∀ a ∈ synthAttrs h frameOf r,
      a.key = h.FieldTime ∨ a.key = h.FieldSrc ∨ a.key = h.FieldMod := by
  intro a ha
  simp only [synthAttrs, List.mem_append] at ha
  rcases ha with (ha | ha) | ha <;> split at ha <;>
    simp_all [SAttr.key]

theorem synth_nodup (h : SlogHandler) (frameOf : Nat → String × String) (r : SRecord)
    (hf : FieldsOK h) : ((synthAttrs h frameOf r).map SAttr.key).Nodup := by
  obtain ⟨hts, htm, hsm, _, _, _⟩ := hf
  unfold synthAttrs
  by_cases c1 : h.FieldTime ≠ "" ∧ r.time ≠ 0 <;>
    by_cases c2 : h.FieldSrc ≠ "" ∧ r.pc ≠ 0 <;>
      by_cases c3 : h.FieldMod ≠ "" ∧ h.Mod ≠ "" <;>
        simp [c1, c2, c3, SAttr.key, hts, htm, hsm]

theorem synth_lookup_none (h : SlogHandler) (frameOf : Nat → String × String)
    (r : SRecord) (k : String) (h1 : k ≠ h.FieldTime) (h2 : k ≠ h.FieldSrc)
    (h3 : k ≠ h.FieldMod) : lookupKey (synthAttrs h frameOf r) k = none := by
  rw [lookupKey_eq_none_iff]
  intro hk
  obtain ⟨a, ha, hak⟩ := List.mem_map.mp hk
  rcases synth_keys h frameOf r a ha with he | he | he
  · exact h1 (by rw [← hak, he])
  · exact h2 (by rw [← hak, he])
  · exact h3 (by rw [← hak, he])

theorem contains_eq_mem_decide (ks : List String) (k : String) :
    ks.contains k = decide (k ∈ ks) :=
  List.elem_eq_mem k ks

theorem emitted_nodup (h : SlogHandler) (frameOf : Nat → String × String)
    (chain : List (List SAttr)) (r : SRecord) (hg : GoodHandler h) (hf : FieldsOK h) :
    ((emittedAttrs h frameOf chain r).map SAttr.key).Nodup := by
  obtain ⟨hnb, hset, hres⟩ := hg
  obtain ⟨hts, htm, hsm, hbt, hbs, hbm⟩ := hf
  have hFsound := filterRun_sound h (chain.flatten ++ r.attrs) []
  have hFkeys : ∀ k ∈ (filteredAttrs h chain r.attrs).map SAttr.key,
      h.reserved k = false ∧ h.attrKeySet.contains k = false := by
    intro k hk
    obtain ⟨a, ha, hak⟩ := List.mem_map.mp hk
    rw [filteredAttrs_eq] at ha
    have hc := (hFsound.2 a ha).1
    rw [checkAttrKey_split] at hc
    rcases Bool.or_eq_false_iff.mp hc with ⟨hr, hcc⟩
    exact ⟨hak ▸ hr, hak ▸ hcc⟩
  have hFnodup : ((filteredAttrs h chain r.attrs).map SAttr.key).Nodup := by
    rw [filteredAttrs_eq]; exact hFsound.1
  have hBkeys : ∀ k ∈ h.baseAttrs.map SAttr.key, h.reserved k = false := by
    intro k hk
    obtain ⟨a, ha, hak⟩ := List.mem_map.mp hk
    exact hak ▸ hres a ha
  have hSkeys : ∀ k ∈ (synthAttrs h frameOf r).map SAttr.key,
      k = h.FieldTime ∨ k = h.FieldSrc ∨ k = h.FieldMod := by
    intro k hk
    obtain ⟨a, ha, hak⟩ := List.mem_map.mp hk
    exact hak ▸ synth_keys h frameOf r a ha
  have hblev : (slogBuiltinKeys.contains "level") = true := by decide
  have hbmsg : (slogBuiltinKeys.contains "msg") = true := by decide
  have hcontra : ∀ fk : String, slogBuiltinKeys.contains fk = false →
      ∀ b : String, slogBuiltinKeys.contains b = true → b = fk → False := by
    intro fk hfk b hb he
    rw [he] at hb
    rw [hb] at hfk
    exact absurd hfk (by decide)
  have hSne : ∀ k ∈ (synthAttrs h frameOf r).map SAttr.key, k ≠ "level" ∧ k ≠ "msg" := by
    intro k hk
    constructor
    · intro he
      rcases hSkeys k hk with hh | hh | hh
      · exact hcontra _ hbt "level" hblev (he.symm.trans hh)
      · exact hcontra _ hbs "level" hblev (he.symm.trans hh)
      · exact hcontra _ hbm "level" hblev (he.symm.trans hh)
    · intro he
      rcases hSkeys k hk with hh | hh | hh
      · exact hcontra _ hbt "msg" hbmsg (he.symm.trans hh)
      · exact hcontra _ hbs "msg" hbmsg (he.symm.trans hh)
      · exact hcontra _ hbm "msg" hbmsg (he.symm.trans hh)
  simp only [emittedAttrs, handleRecord, List.map_cons, List.map_append, SAttr.key]
  rw [List.nodup_cons, List.nodup_cons]
  refine ⟨?_, ?_, ?_⟩
  · intro hmem
    rw [List.mem_cons] at hmem
    rcases hmem with hmem | hmem
    · exact absurd hmem (by decide)
    · rw [List.mem_append] at hmem
      rcases hmem with hmem | hmem
      · exact ((reserved_false_iff h "level").mp (hBkeys _ hmem)).2.2.2.2.1 rfl
      · rw [List.mem_append] at hmem
        rcases hmem with hmem | hmem
        · exact (hSne _ hmem).1 rfl
        · exact ((reserved_false_iff h "level").mp (hFkeys _ hmem).1).2.2.2.2.1 rfl
  · intro hmem
    rw [List.mem_append] at hmem
    rcases hmem with hmem | hmem
    · exact ((reserved_false_iff h "msg").mp (hBkeys _ hmem)).2.2.2.2.2 rfl
    · rw [List.mem_append] at hmem
      rcases hmem with hmem | hmem
      · exact (hSne _ hmem).2 rfl
      · exact ((reserved_false_iff h "msg").mp (hFkeys _ hmem).1).2.2.2.2.2 rfl
  · refine hnb.append ?_ ?_
    · refine (synth_nodup h frameOf r ⟨hts, htm, hsm, hbt, hbs, hbm⟩).append hFnodup ?_
      intro k hkS hkF
      obtain ⟨_, h2, h3, h4, _, _⟩ := (reserved_false_iff h k).mp (hFkeys k hkF).1
      rcases hSkeys k hkS with hh | hh | hh
      · exact h2 hh
      · exact h3 hh
      · exact h4 hh
    · intro k hkB hkSF
      rw [List.mem_append] at hkSF
      rcases hkSF with hkS | hkF
      · obtain ⟨_, h2, h3, h4, _, _⟩ := (reserved_false_iff h k).mp (hBkeys k hkB)
        rcases hSkeys k hkS with hh | hh | hh
        · exact h2 hh
        · exact h3 hh
        · exact h4 hh
      · have hcc := (hFkeys k hkF).2
        rw [hset, contains_eq_mem_decide] at hcc
        simp [hkB] at hcc

theorem emitted_lookup (h : SlogHandler) (frameOf : Nat → String × String)
    (chain : List (List SAttr)) (r : SRecord) (k : String) (hg : GoodHandler h)
    (hk : h.reserved k = false) :
    lookupKey (emittedAttrs h frameOf chain r) k
      = (lookupKey h.baseAttrs k).or
          ((lookupKey (chain.flatten ++ r.attrs) k).map normVal) := by
  obtain ⟨hnb, hset, hres⟩ := hg
  obtain ⟨hne, hnt, hns, hnm, hnl, hnmsg⟩ := (reserved_false_iff h k).mp hk
  have hlev : SAttr.key (("level" : String), SValue.str (levelText r.level)) ≠ k :=
    fun he => hnl (he.symm)
  have hmsg : SAttr.key (("msg" : String), SValue.str r.msg) ≠ k :=
    fun he => hnmsg (he.symm)
  simp only [emittedAttrs, handleRecord]
  rw [lookupKey_cons_miss _ _ _ hlev, lookupKey_cons_miss _ _ _ hmsg, lookupKey_append]
  cases hB : lookupKey h.baseAttrs k with
  | some v => simp [Option.or]
  | none =>
    simp only [Option.or]
    rw [lookupKey_append,
      synth_lookup_none h frameOf r k (fun he => hnt he) (fun he => hns he) (fun he => hnm he)]
    simp only [Option.or]
    have hkeyset : h.attrKeySet.contains k = false := by
      rw [hset, contains_eq_mem_decide]
      have := (lookupKey_eq_none_iff h.baseAttrs k).mp hB
      simp [this]
    have hchk : h.checkAttrKey k = false := by
      rw [checkAttrKey_split, hk, hkeyset]
      rfl
    rw [filteredAttrs_eq]
    exact filterRun_lookup h (chain.flatten ++ r.attrs) [] k hchk (by simp)

theorem resolveValueStepsLoop_le (env : Nat → RValue) :
    ∀ (fuel : Nat) (v : RValue), resolveValueStepsLoop env fuel v ≤ fuel := by
  intro fuel
  induction fuel with
  | zero => intro v; simp [resolveValueStepsLoop]
  | succ n ih =>
    intro v
    cases v with
    | anyValuer id tag =>
      simp only [resolveValueStepsLoop]
      have := ih (env id)
      omega
    | _ => simp [resolveValueStepsLoop]

/-- C4: for every value, including any cyclic or self-referential
lazily-resolvable value, Resolve terminates: the walk over
lazily-resolvable values performs at most valueResolveRecursionLimit = 64
LogValue steps for any environment of user LogValuers (so resolution never
loops and never recurses unboundedly — the Lean functions are total by
construction, fuelled exactly as the Go code is), and the deliberately
self-referential lazy value resolves to the overflow sentinel error value
the code builds at fuel exhaustion. -/
theorem klog_c4_resolve_bounded_termination :
    (∀ (env : Nat → RValue) (v : RValue),
        RValue.resolveValueSteps env v ≤ valueResolveRecursionLimit)
      ∧ RValue.Resolve cyclicEnv selfRefValue
          = RValue.anyErr (GoError.base (overflowValueMsg selfRefValue.anyTag)) :=
  ⟨fun env v => resolveValueStepsLoop_le env valueResolveRecursionLimit v, rfl⟩

/-- C5: evaluating the code at a deliberately self-referential
lazily-resolvable value shows the overflow result is an error value whose
error does NOT wrap ErrorExceedValueResolveRecursion, because the Go source
omits the sentinel operand from both fmt.Errorf calls (vet-detectable
missing arguments); the same holds for the group-depth overflow error.
This falsifies the claim that the sentinel wraps
ErrorExceedValueResolveRecursion and describes the dynamic type, supporting
the code_bug verdict. -/
theorem klog_c5_overflow_sentinel_not_wrapped :
    RValue.Resolve cyclicEnv selfRefValue
        = RValue.anyErr (GoError.base (overflowValueMsg selfRefValue.anyTag))
      ∧ GoError.is (GoError.base (overflowValueMsg selfRefValue.anyTag))
          ErrorExceedValueResolveRecursion = false
      ∧ resolveGroupFuel cyclicEnv 0 (RValue.anyGroup [("g", RValue.str "x")])
          = RValue.anyGroup [("g", RValue.anyErr (GoError.base overflowGroupMsg))]
      ∧ GoError.is (GoError.base overflowGroupMsg) ErrorExceedValueResolveRecursion
          = false :=
  ⟨rfl, by decide, rfl, by decide⟩

/-- C2: the logger's Enabled combines the level comparison against its own
minLevel with the sink's independent Enabled check, and a record is handed
to the sink's Handle exactly when both agree. -/
theorem klog_c2_enabled_conjunction (l : KLogger) (pcOf : Nat → Nat) (level : Int)
    (skip : Nat) (msg : String) (attrs : List SAttr) :
    (l.Enabled level = true ↔ level ≥ l.minLevel ∧ l.sinkEnabled level = true)
      ∧ ((l.Log pcOf level skip msg attrs).handled.isSome = true
          ↔ level ≥ l.minLevel ∧ l.sinkEnabled level = true) := by
  have hiff : l.Enabled level = true ↔ level ≥ l.minLevel ∧ l.sinkEnabled level = true := by
    simp [KLogger.Enabled, Bool.and_eq_true, decide_eq_true_eq]
  refine ⟨hiff, ?_⟩
  by_cases he : l.Enabled level = true
  · simp only [KLogger.Log, he, Bool.not_true, Bool.false_eq_true, if_false]
    simpa using hiff.mp he
  · have he2 : l.Enabled level = false := by simpa using he
    simp only [KLogger.Log, he2, Bool.not_false, if_true]
    simp only [Option.isSome_none, Bool.false_eq_true, false_iff]
    intro hc
    rw [hiff.mpr hc] at he2
    exact absurd he2 (by decide)

/-- C3: a log call at a level for which the logger is not enabled is a
complete no-op: the clock is not read, no caller pc is captured, and no
record reaches the sink's Handle. -/
theorem klog_c3_disabled_noop (l : KLogger) (pcOf : Nat → Nat) (level : Int)
    (skip : Nat) (msg : String) (attrs : List SAttr)
    (hdis : l.Enabled level = false) :
    (l.Log pcOf level skip msg attrs).clockReads = 0
      ∧ (l.Log pcOf level skip msg attrs).pcCaptures = 0
      ∧ (l.Log pcOf level skip msg attrs).handled = none := by
  simp [KLogger.Log, hdis]

/-- klog_c3_witness instantiates C3 at the spec's concrete scenario: a
logger gated at warn receiving a debug call produces no clock read, no pc
capture and no sink invocation. -/
theorem klog_c3_witness :
    c3Logger.Enabled LevelDebug = false
      ∧ ((c3Logger.Log c3PcOf LevelDebug 0 "dbg" []).clockReads = 0
        ∧ (c3Logger.Log c3PcOf LevelDebug 0 "dbg" []).pcCaptures = 0
        ∧ (c3Logger.Log c3PcOf LevelDebug 0 "dbg" []).handled = none) :=
  ⟨by decide, klog_c3_disabled_noop c3Logger c3PcOf LevelDebug 0 "dbg" [] (by decide)⟩

/-- C7: sub-handler path composition is order-preserving: a nonempty
segment appends separator-then-segment to the module path, an empty segment
leaves the path unchanged, the default separator is a dot, and deriving
with a then b from the default handler yields .a.b. -/
theorem klog_c7_path_composition (h : SlogHandler) (seg : String) (attrs : List SAttr)
    (hseg : seg ≠ "") :
    (h.Subhandler seg attrs).Mod = h.Mod ++ h.ModSeparator ++ seg
      ∧ (∀ attrs2 : List SAttr, (h.Subhandler "" attrs2).Mod = h.Mod)
      ∧ NewSlogHandler.ModSeparator = "."
      ∧ ((NewSlogHandler.Subhandler "a" []).Subhandler "b" []).Mod = ".a.b" := by
  refine ⟨?_, ?_, rfl, by decide⟩
  · rw [Subhandler_eq]
    simp [hseg]
  · intro attrs2
    rw [Subhandler_eq]
    simp

/-- klog_c7_witness instantiates C7 at the default handler with segment
a. -/
theorem klog_c7_witness :
    ("a" : String) ≠ ""
      ∧ ((NewSlogHandler.Subhandler "a" []).Mod
            = NewSlogHandler.Mod ++ NewSlogHandler.ModSeparator ++ "a"
        ∧ (∀ attrs2 : List SAttr, (NewSlogHandler.Subhandler "" attrs2).Mod
            = NewSlogHandler.Mod)
        ∧ NewSlogHandler.ModSeparator = "."
        ∧ ((NewSlogHandler.Subhandler "a" []).Subhandler "b" []).Mod = ".a.b") :=
  ⟨by decide, klog_c7_path_composition NewSlogHandler "a" [] (by decide)⟩

/-- C8: every failure of the delegate encoder or writer inside the
serializer's Log is reported on the ErrorLog side channel with its message
and nothing is raised to the caller (the outcome type carries no error);
on success nothing is reported. -/
theorem klog_c8_sink_failures_side_channel
    (enc : List (String × String) → Except String String)
    (wr : String → Except String Unit) (allFields : List (String × String))
    (e : String) :
    (enc allFields = Except.error e →
        JSONSerializer.Log enc wr allFields
          = { written := none, errorLog := [e] })
      ∧ (∀ b, enc allFields = Except.ok b → wr b = Except.error e →
          JSONSerializer.Log enc wr allFields
            = { written := none, errorLog := [e] })
      ∧ (∀ b, enc allFields = Except.ok b → wr b = Except.ok () →
          JSONSerializer.Log enc wr allFields
            = { written := some b, errorLog := [] }) :=
  ⟨fun he => by simp [JSONSerializer.Log, he],
    fun b hb hw => by simp [JSONSerializer.Log, hb, hw],
    fun b hb hw => by simp [JSONSerializer.Log, hb, hw]⟩

/-- klog_c8_witness instantiates C8 at the failing writer of the
serializer's own test: the write failure message appears on the ErrorLog
and nothing was written. -/
theorem klog_c8_witness :
    c8Enc c8Fields = Except.ok "line"
      ∧ c8Wr "line" = Except.error "Failed writing"
      ∧ JSONSerializer.Log c8Enc c8Wr c8Fields
          = { written := none, errorLog := ["Failed writing"] } :=
  ⟨rfl, rfl,
    (klog_c8_sink_failures_side_channel c8Enc c8Wr c8Fields "Failed writing").2.1
      "line" rfl rfl⟩

/-- C1: for every event delivered to Handle and every non-reserved key k,
the emitted record (as rendered by the delegate: builtin fields, base
attributes, then the record Handle built) has duplicate-free keys, and the
value it carries under k is the sub-logger base value when the base defines
k, else the first value found scanning the context chain innermost node
first and then the call-site attributes — i.e. the context chain's
innermost value, else the call-site value, else k is absent (Option.or of
the two lookups is none).  Values pass through the code's error
normalization, which is the identity on every value that is not a KindAny
Go error. -/
theorem klog_c1_attr_precedence (h : SlogHandler) (frameOf : Nat → String × String)
    (chain : List (List SAttr)) (r : SRecord) (k : String)
    (hg : GoodHandler h) (hf : FieldsOK h) (hk : h.reserved k = false) :
    ((emittedAttrs h frameOf chain r).map SAttr.key).Nodup
      ∧ lookupKey (emittedAttrs h frameOf chain r) k
          = (lookupKey h.baseAttrs k).or
              ((lookupKey (chain.flatten ++ r.attrs) k).map normVal)
      ∧ (∀ v : SValue, isAnyErr v = false → normVal v = v) :=
  ⟨emitted_nodup h frameOf chain r hg hf, emitted_lookup h frameOf chain r k hg hk,
    fun v hv => normVal_id v hv⟩

/-- klog_c1_witness instantiates C1 at the spec's concrete scenario: base
env=prod on the sub-handler, context req_id=abc, call-site env=ignored and
port=8080, looked up at the contested key env. -/
theorem klog_c1_witness :
    GoodHandler c1H ∧ FieldsOK c1H ∧ c1H.reserved "env" = false
      ∧ (((emittedAttrs c1H c1Frame c1Chain c1R).map SAttr.key).Nodup
        ∧ lookupKey (emittedAttrs c1H c1Frame c1Chain c1R) "env"
            = (lookupKey c1H.baseAttrs "env").or
                ((lookupKey (c1Chain.flatten ++ c1R.attrs) "env").map normVal)
        ∧ (∀ v : SValue, isAnyErr v = false → normVal v = v)) :=
  ⟨by decide, by decide, by decide,
    klog_c1_attr_precedence c1H c1Frame c1Chain c1R "env" (by decide) (by decide)
      (by decide)⟩

theorem filterRun_drop_reserved (h : SlogHandler) (l : List SAttr) :
    ∀ seen : List String,
      filterRun h (l.filter (fun a => !(h.reserved a.key))) seen = filterRun h l seen := by
  induction l with
  | nil => intro seen; rfl
  | cons a l ih =>
    intro seen
    by_cases hr : h.reserved a.key = true
    · have hchk : h.checkAttrKey a.key = true := by
        rw [checkAttrKey_split, hr]
        rfl
      have hfc : (a :: l).filter (fun x => !(h.reserved x.key))
          = l.filter (fun x => !(h.reserved x.key)) := by
        rw [List.filter_cons]
        simp [hr]
      rw [hfc, ih seen, filterRun_cons_chk h a l seen hchk]
    · replace hr : h.reserved a.key = false := by simpa using hr
      have hfc : (a :: l).filter (fun x => !(h.reserved x.key))
          = a :: l.filter (fun x => !(h.reserved x.key)) := by
        rw [List.filter_cons]
        simp [hr]
      rw [hfc]
      by_cases hchk : h.checkAttrKey a.key
      · rw [filterRun_cons_chk h a _ seen hchk, filterRun_cons_chk h a l seen hchk, ih seen]
      · replace hchk : h.checkAttrKey a.key = false := by simpa using hchk
        by_cases hmem : a.key ∈ seen
        · rw [filterRun_cons_seen h a _ seen hchk hmem,
            filterRun_cons_seen h a l seen hchk hmem, ih seen]
        · rw [filterRun_cons_new h a _ seen hchk hmem,
            filterRun_cons_new h a l seen hchk hmem, ih (seen ++ [a.key])]

theorem flatten_map_filter (p : SAttr → Bool) (L : List (List SAttr)) :
    (L.map (fun b => b.filter p)).flatten = L.flatten.filter p := by
  induction L with
  | nil => rfl
  | cons b L ih =>
    simp only [List.map_cons, List.flatten_cons, List.filter_append]
    rw [ih]

theorem emitted_lookup_fieldtime (h : SlogHandler) (frameOf : Nat → String × String)
    (chain : List (List SAttr)) (r : SRecord) (hg : GoodHandler h) (hf : FieldsOK h)
    (ht : h.FieldTime ≠ "") (htz : r.time ≠ 0) :
    lookupKey (emittedAttrs h frameOf chain r) h.FieldTime
      = some (SValue.str (fmtTime r.time)) := by
  obtain ⟨hnb, hset, hres⟩ := hg
  obtain ⟨hts, htm, hsm, hbt, hbs, hbm⟩ := hf
  have hblev : (slogBuiltinKeys.contains "level") = true := by decide
  have hbmsg : (slogBuiltinKeys.contains "msg") = true := by decide
  have hlev : SAttr.key (("level" : String), SValue.str (levelText r.level)) ≠ h.FieldTime := by
    intro he
    have he2 : ("level" : String) = h.FieldTime := he
    rw [← he2] at hbt
    rw [hblev] at hbt
    exact absurd hbt (by decide)
  have hmsg : SAttr.key (("msg" : String), SValue.str r.msg) ≠ h.FieldTime := by
    intro he
    have he2 : ("msg" : String) = h.FieldTime := he
    rw [← he2] at hbt
    rw [hbmsg] at hbt
    exact absurd hbt (by decide)
  have hbase : lookupKey h.baseAttrs h.FieldTime = none := by
    rw [lookupKey_eq_none_iff]
    intro hmem
    obtain ⟨a, ha, hak⟩ := List.mem_map.mp hmem
    exact ((reserved_false_iff h a.key).mp (hres a ha)).2.1 hak
  simp only [emittedAttrs, handleRecord]
  rw [lookupKey_cons_miss _ _ _ hlev, lookupKey_cons_miss _ _ _ hmsg, lookupKey_append,
    hbase]
  simp only [Option.or]
  rw [lookupKey_append]
  have hsynth : lookupKey (synthAttrs h frameOf r) h.FieldTime
      = some (SValue.str (fmtTime r.time)) := by
    have hcond : h.FieldTime ≠ "" ∧ r.time ≠ 0 := ⟨ht, htz⟩
    simp only [synthAttrs, if_pos hcond, List.cons_append, List.nil_append]
    exact lookupKey_cons_hit (h.FieldTime, SValue.str (fmtTime r.time)) _ h.FieldTime rfl
  rw [hsynth]
  rfl

/-- C6: a user-supplied attribute whose key is reserved — empty, one of the
configured time, source and module field names, or the builtin level and
message keys — never reaches the emitted record from the context chain, the
call-site attributes, or sub-handler base registration: every surviving
user attribute has a non-reserved key and comes from a user attribute of
the same key (dropped, never renamed), deleting the reserved-key user
attributes from the inputs leaves the output unchanged, the synthesized
fields are written before all user attributes, and the synthesized
timestamp under the time field name is what the emitted record carries
there no matter which user attributes were supplied. -/
theorem klog_c6_reserved_keys_dropped (h : SlogHandler) (frameOf : Nat → String × String)
    (chain : List (List SAttr)) (r : SRecord) (seg : String) (attrs : List SAttr)
    (hg : GoodHandler h) (hf : FieldsOK h) :
    (∀ a ∈ filteredAttrs h chain r.attrs,
        h.reserved a.key = false ∧ ∃ u ∈ chain.flatten ++ r.attrs, a = normAttr u)
      ∧ filteredAttrs h (chain.map (fun b => b.filter (fun a => !(h.reserved a.key))))
            (r.attrs.filter (fun a => !(h.reserved a.key)))
          = filteredAttrs h chain r.attrs
      ∧ (handleRecord h frameOf chain r).attrs
          = synthAttrs h frameOf r ++ filteredAttrs h chain r.attrs
      ∧ (∀ a ∈ (h.Subhandler seg attrs).baseAttrs, h.reserved a.key = false)
      ∧ (h.FieldTime ≠ "" → r.time ≠ 0 →
          lookupKey (emittedAttrs h frameOf chain r) h.FieldTime
            = some (SValue.str (fmtTime r.time))) := by
  refine ⟨?_, ?_, rfl, ?_, ?_⟩
  · intro a ha
    rw [filteredAttrs_eq] at ha
    have hs := (filterRun_sound h (chain.flatten ++ r.attrs) []).2 a ha
    have hchk := hs.1
    rw [checkAttrKey_split] at hchk
    exact ⟨(Bool.or_eq_false_iff.mp hchk).1, hs.2.2⟩
  · rw [filteredAttrs_eq, filteredAttrs_eq, flatten_map_filter, ← List.filter_append,
      filterRun_drop_reserved]
  · have hgood := GoodHandler_Subhandler h seg attrs hg
    intro a ha
    have := hgood.2.2 a ha
    rw [reserved_Subhandler] at this
    exact this
  · intro ht htz
    exact emitted_lookup_fieldtime h frameOf chain r hg hf ht htz

/-- klog_c6_witness instantiates C6 at the concrete scenario handler with a
derivation that tries to register a base attribute under the reserved time
field name. -/
theorem klog_c6_witness :
    GoodHandler c1H ∧ FieldsOK c1H
      ∧ ((∀ a ∈ filteredAttrs c1H c1Chain c1R.attrs,
            c1H.reserved a.key = false
              ∧ ∃ u ∈ c1Chain.flatten ++ c1R.attrs, a = normAttr u)
        ∧ filteredAttrs c1H
              (c1Chain.map (fun b => b.filter (fun a => !(c1H.reserved a.key))))
              (c1R.attrs.filter (fun a => !(c1H.reserved a.key)))
            = filteredAttrs c1H c1Chain c1R.attrs
        ∧ (handleRecord c1H c1Frame c1Chain c1R).attrs
            = synthAttrs c1H c1Frame c1R ++ filteredAttrs c1H c1Chain c1R.attrs
        ∧ (∀ a ∈ (c1H.Subhandler "db" [("t", SValue.str "boom")]).baseAttrs,
            c1H.reserved a.key = false)
        ∧ (c1H.FieldTime ≠ "" → c1R.time ≠ 0 →
            lookupKey (emittedAttrs c1H c1Frame c1Chain c1R) c1H.FieldTime
              = some (SValue.str (fmtTime c1R.time)))) :=
  ⟨by decide, by decide,
    klog_c6_reserved_keys_dropped c1H c1Frame c1Chain c1R "db"
      [("t", SValue.str "boom")] (by decide) (by decide)⟩

theorem getD_append_len (σ : KeyStore) (ks : List String) :
    (σ ++ [ks]).getD σ.length [] = ks := by
  induction σ with
  | nil => rfl
  | cons c σ ih => exact ih

theorem set_append_len (σ : KeyStore) (ks x : List String) :
    (σ ++ [ks]).set σ.length x = σ ++ [x] := by
  induction σ with
  | nil => rfl
  | cons c σ ih => simp [List.set, ih]

theorem getD_append_lt (σ : KeyStore) (ks : List String) (i : Nat) (hi : i < σ.length) :
    (σ ++ [ks]).getD i [] = σ.getD i [] := by
  induction σ generalizing i with
  | nil => exact absurd hi (by simp)
  | cons c σ ih =>
    cases i with
    | zero => rfl
    | succ j =>
      have hj : j < σ.length := by simpa using hi
      simpa using ih j hj

theorem checkKeyWith_fields (h1 h2 : SlogHandler) (ks : List String) (k : String)
    (ht : h1.FieldTime = h2.FieldTime) (hs : h1.FieldSrc = h2.FieldSrc)
    (hm : h1.FieldMod = h2.FieldMod) :
    checkKeyWith h1 ks k = checkKeyWith h2 ks k := by
  simp [checkKeyWith, ht, hs, hm]

theorem subRef_fold (h2 : SlogHandlerRef) (hp : SlogHandler)
    (hft : hp.FieldTime = h2.FieldTime) (hfs : hp.FieldSrc = h2.FieldSrc)
    (hfm : hp.FieldMod = h2.FieldMod) (σbase : KeyStore) :
    ∀ (attrs : List SAttr) (ks : List String) (acc : List SAttr),
      attrs.foldl
          (fun (st : KeyStore × List SAttr) a =>
            if checkKeyWith (derefHandler h2 st.1) (st.1.getD σbase.length []) a.key then st
            else (st.1.set σbase.length (st.1.getD σbase.length [] ++ [a.key]), st.2 ++ [a]))
          (σbase ++ [ks], acc)
        = (σbase ++ [(regRun hp attrs ks).1], acc ++ (regRun hp attrs ks).2) := by
  intro attrs
  induction attrs with
  | nil => intro ks acc; simp [regRun]
  | cons a l ih =>
    intro ks acc
    simp only [List.foldl_cons]
    rw [getD_append_len]
    have hchk : checkKeyWith (derefHandler h2 (σbase ++ [ks])) ks a.key
        = checkKeyWith hp ks a.key :=
      checkKeyWith_fields _ _ ks a.key hft.symm hfs.symm hfm.symm
    rw [hchk]
    by_cases hc : checkKeyWith hp ks a.key
    · rw [if_pos hc, ih ks acc, regRun_cons_chk hp a l ks hc]
    · replace hc : checkKeyWith hp ks a.key = false := by simpa using hc
      rw [if_neg (by simp [hc]), set_append_len, ih (ks ++ [a.key]) (acc ++ [a]),
        regRun_cons_new hp a l ks hc]
      simp

/-- C9: deriving a sub-handler on the reference-cell model (where the
registered key set is a heap cell shared by reference and clone deep-copies
it before Subhandler mutates the copy) leaves the parent handler fully
intact — dereferencing the parent against the post-derivation store yields
exactly its pre-derivation state, path, key set and delegate included — and
the derived child dereferences to precisely the pure Subhandler of the
parent, so derivation is copy-then-modify and never mutates the parent. -/
theorem klog_c9_derivation_preserves_parent (h : SlogHandlerRef) (σ : KeyStore)
    (seg : String) (attrs : List SAttr) (href : h.keySetRef < σ.length) :
    derefHandler h (SubhandlerRef h σ seg attrs).2 = derefHandler h σ
      ∧ derefHandler (SubhandlerRef h σ seg attrs).1 (SubhandlerRef h σ seg attrs).2
          = (derefHandler h σ).Subhandler seg attrs := by
  have hfold := subRef_fold { h with keySetRef := σ.length } (derefHandler h σ)
    rfl rfl rfl σ attrs (σ.getD h.keySetRef []) []
  have hsub : SubhandlerRef h σ seg attrs
      = ({ h with
            keySetRef := σ.length
            Mod := if seg ≠ "" then h.Mod ++ h.ModSeparator ++ seg else h.Mod
            baseAttrs := h.baseAttrs
              ++ (regRun (derefHandler h σ) attrs (σ.getD h.keySetRef [])).2 },
        σ ++ [(regRun (derefHandler h σ) attrs (σ.getD h.keySetRef [])).1]) := by
    simp only [SubhandlerRef, cloneRef]
    rw [hfold]
    simp
  rw [hsub]
  constructor
  · simp only [derefHandler]
    rw [getD_append_lt σ _ h.keySetRef href]
  · rw [Subhandler_eq]
    simp only [derefHandler]
    rw [getD_append_len]

/-- klog_c9_witness instantiates C9 at a one-cell store. -/
theorem klog_c9_witness :
    c9H.keySetRef < c9Store.length
      ∧ (derefHandler c9H (SubhandlerRef c9H c9Store "a" [("k", SValue.str "v")]).2
            = derefHandler c9H c9Store
        ∧ derefHandler (SubhandlerRef c9H c9Store "a" [("k", SValue.str "v")]).1
              (SubhandlerRef c9H c9Store "a" [("k", SValue.str "v")]).2
            = (derefHandler c9H c9Store).Subhandler "a" [("k", SValue.str "v")]) :=
  ⟨by decide,
    klog_c9_derivation_preserves_parent c9H c9Store "a" [("k", SValue.str "v")]
      (by decide)⟩

theorem addAttrs_step (a : attrsList) (b : List SAttr) (hI : attrsListInv a) :
    (a.addAttrs b).readAttrs = a.readAttrs ++ b ∧ attrsListInv (a.addAttrs b) := by
  obtain ⟨hlen, hle, hsp⟩ := hI
  by_cases hA : a.attrs = []
  · have hnb : min (eventInlineAttrsSize - a.numInlineAttrs) b.length ≤ b.length :=
      Nat.min_le_right _ _
    have hnc : a.numInlineAttrs + min (eventInlineAttrsSize - a.numInlineAttrs) b.length
        ≤ eventInlineAttrsSize := by
      have := Nat.min_le_left (eventInlineAttrsSize - a.numInlineAttrs) b.length
      omega
    have hlenTake : (a.inlineAttrs.take a.numInlineAttrs).length = a.numInlineAttrs := by
      rw [List.length_take, hlen]
      omega
    have hlenTakeB :
        (b.take (min (eventInlineAttrsSize - a.numInlineAttrs) b.length)).length
          = min (eventInlineAttrsSize - a.numInlineAttrs) b.length := by
      rw [List.length_take]
      omega
    have hABlen : (a.inlineAttrs.take a.numInlineAttrs
          ++ b.take (min (eventInlineAttrsSize - a.numInlineAttrs) b.length)).length
        = a.numInlineAttrs + min (eventInlineAttrsSize - a.numInlineAttrs) b.length := by
      rw [List.length_append, hlenTake, hlenTakeB]
    have htake : ((a.inlineAttrs.take a.numInlineAttrs
          ++ b.take (min (eventInlineAttrsSize - a.numInlineAttrs) b.length))
          ++ a.inlineAttrs.drop (a.numInlineAttrs
            + (b.take (min (eventInlineAttrsSize - a.numInlineAttrs) b.length)).length)).take
            (a.numInlineAttrs + min (eventInlineAttrsSize - a.numInlineAttrs) b.length)
        = a.inlineAttrs.take a.numInlineAttrs
          ++ b.take (min (eventInlineAttrsSize - a.numInlineAttrs) b.length) := by
      rw [show a.numInlineAttrs + min (eventInlineAttrsSize - a.numInlineAttrs) b.length
          = (a.inlineAttrs.take a.numInlineAttrs
            ++ b.take (min (eventInlineAttrsSize - a.numInlineAttrs) b.length)).length + 0
        from by rw [hABlen]; omega]
      rw [List.take_append 0]
      simp
    refine ⟨?_, ?_, ?_, ?_⟩
    · simp only [attrsList.addAttrs, attrsList.readAttrs, writeSlots]
      rw [htake, hA]
      simp only [List.append_nil, List.nil_append, List.append_assoc]
      rw [List.take_append_drop]
    · simp only [attrsList.addAttrs, writeSlots]
      rw [List.length_append, List.length_append, hlenTake, hlenTakeB, List.length_drop,
        hlen]
      omega
    · simp only [attrsList.addAttrs]
      exact hnc
    · simp only [attrsList.addAttrs]
      intro hne
      rw [hA, List.nil_append] at hne
      have hlt : min (eventInlineAttrsSize - a.numInlineAttrs) b.length < b.length := by
        by_contra hcontra
        push_neg at hcontra
        have : min (eventInlineAttrsSize - a.numInlineAttrs) b.length = b.length := by
          omega
        rw [this, List.drop_length] at hne
        exact hne rfl
      omega
  · have hnum : a.numInlineAttrs = eventInlineAttrsSize := hsp hA
    have hzero : min (eventInlineAttrsSize - a.numInlineAttrs) b.length = 0 := by
      omega
    have hinline : writeSlots a.inlineAttrs a.numInlineAttrs (b.take 0) = a.inlineAttrs := by
      simp only [writeSlots, List.take_zero, List.length_nil, Nat.add_zero, List.nil_append]
      rw [hnum, ← hlen, List.take_length, List.drop_length]
      simp
    refine ⟨?_, ?_, ?_, ?_⟩
    · simp only [attrsList.addAttrs, attrsList.readAttrs, hzero, hinline]
      simp [List.append_assoc]
    · simp only [attrsList.addAttrs, hzero, hinline]
      exact hlen
    · simp only [attrsList.addAttrs, hzero]
      omega
    · simp only [attrsList.addAttrs, hzero]
      intro _
      omega

theorem foldl_addAttrs_read (batches : List (List SAttr)) :
    ∀ acc : attrsList, attrsListInv acc →
      (batches.foldl attrsList.addAttrs acc).readAttrs = acc.readAttrs ++ batches.flatten
        ∧ attrsListInv (batches.foldl attrsList.addAttrs acc) := by
  induction batches with
  | nil => intro acc h; exact ⟨by simp, h⟩
  | cons b bs ih =>
    intro acc h
    simp only [List.foldl_cons, List.flatten_cons]
    obtain ⟨hr, hi⟩ := addAttrs_step acc b h
    obtain ⟨hr2, hi2⟩ := ih (acc.addAttrs b) hi
    rw [hr2, hr]
    exact ⟨by simp [List.append_assoc], hi2⟩

theorem attrsListInv_empty : attrsListInv attrsList.empty := by
  refine ⟨by simp [attrsList.empty], by simp [attrsList.empty], fun hne => ?_⟩
  exact absurd rfl hne

/-- C10: the inline-buffer attribute list is observationally equivalent to
a plain append-only list: for any sequence of addAttrs batches starting
from the zero attrsList, readAttrs visits exactly the attributes that were
added, each exactly once, in insertion order, however they were split
between the five inline slots and the overflow slice. -/
theorem klog_c10_attrslist_refinement (batches : List (List SAttr)) :
    (batches.foldl attrsList.addAttrs attrsList.empty).readAttrs = batches.flatten := by
  have h := (foldl_addAttrs_read batches attrsList.empty attrsListInv_empty).1
  rw [h]
  simp [attrsList.readAttrs, attrsList.empty]

end Klog
